import Mathlib

/-!
Verification of the bullet selection and context assembly core of the
`ats_builder` package (`src/ats_builder/match.py`, `src/ats_builder/generate.py`,
data model in `src/ats_builder/schemas.py`).

Python floats are modelled exactly by rationals (the decimal literals 0.6,
0.4, 0.7, 0.3, 0.05 are exact in ℚ); Python sets of strings are `Finset String`;
Python dicts keyed by role index are association lists in insertion order
(`select_bullets` assigns each role index exactly once, in increasing order,
so insertion order is key order and keys are unique, matching `dict`).
-/

set_option maxRecDepth 100000

namespace ATS

/-! ## Data model (schemas.py) -/

/-- `Identity` dataclass from schemas.py. -/
structure Identity where
  name : String
  email : String
  phone : Option String := none
  location : Option String := none
  links : List String := []
deriving Repr, DecidableEq

/-- `Artifact` dataclass from schemas.py. -/
structure Artifact where
  source_id : String
  type : String
  uri_or_text : String
deriving Repr, DecidableEq

/-- `Bullet` dataclass from schemas.py. -/
structure Bullet where
  text : String
  source_ids : List String := []
deriving Repr, DecidableEq

/-- `Experience` dataclass from schemas.py (`end` is a Lean keyword, renamed `end_`). -/
structure Experience where
  company : String
  role : String
  start : Option String := none
  end_ : Option String := none
  bullets : List Bullet := []
  skills : List String := []
  tools : List String := []
deriving Repr, DecidableEq

/-- `Education` dataclass from schemas.py. -/
structure Education where
  institution : String
  degree : Option String := none
  start : Option String := none
  end_ : Option String := none
deriving Repr, DecidableEq

/-- `Candidate` dataclass from schemas.py.  The `projects` field is
`List[Dict[str, Any]]` in the source; none of the core functions ever read
inside a project entry, so a project is modelled as an opaque key/value list. -/
structure Candidate where
  identity : Identity
  work_experience : List Experience := []
  education : List Education := []
  skills_hard : List String := []
  skills_soft : List String := []
  certifications : List String := []
  projects : List (List (String × String)) := []
  artifacts : List Artifact := []
deriving Repr, DecidableEq

/-- `JobPosting` dataclass from schemas.py. -/
structure JobPosting where
  text : String
  title : Option String := none
  company : Option String := none
  location : Option String := none
  keywords : List String := []
deriving Repr, DecidableEq

/-- `SelectedBullet` dataclass from schemas.py. -/
structure SelectedBullet where
  role_index : ℕ
  bullet_index : ℕ
  text : String
  source_ids : List String
  score : ℚ
deriving Repr, DecidableEq

/-- `SelectionResult` dataclass from schemas.py; `selected_by_role` is a Python
dict built by assigning role indices 0,1,2,… in order, modelled as an
association list in insertion order. -/
structure SelectionResult where
  selected_by_role : List (ℕ × List SelectedBullet) := []
  keywords : List String := []
deriving Repr, DecidableEq

/-! ## Python string primitives used by match.py -/

/-- Accumulator-based splitter over the character list: split on whitespace
runs, dropping empty pieces, as Python `str.split()` does. -/
def splitWsAux : List Char → List Char → List String
  | [], acc => if acc = [] then [] else [String.mk acc.reverse]
  | c :: cs, acc =>
    if c.isWhitespace then
      (if acc = [] then [] else [String.mk acc.reverse]) ++ splitWsAux cs []
    else splitWsAux cs (c :: acc)

/-- Python `str.split()` with no argument: split on whitespace runs and drop
empty pieces. -/
def pySplit (s : String) : List String := splitWsAux s.data []

/-- Python `str.lower()` (character-wise lowering). -/
def pyLower (s : String) : String := String.mk (s.data.map Char.toLower)

/-- Python `str.strip(chars)`: remove characters of `cs` from both ends. -/
def pyStripChars (cs : List Char) (s : String) : String :=
  String.mk (((s.data.dropWhile (· ∈ cs)).reverse.dropWhile (· ∈ cs)).reverse)

/-- Python `str.strip()` with no argument: remove whitespace from both ends. -/
def pyStrip (s : String) : String :=
  String.mk (((s.data.dropWhile Char.isWhitespace).reverse.dropWhile Char.isWhitespace).reverse)

/-- Python truthiness of an `Optional[str]`: `None` and `""` are falsy. -/
def strTruthy : Option String → Bool
  | none => false
  | some s => s ≠ ""

/-- Python `s or default` on an `Optional[str]` (used for job title/company). -/
def pyOrStr (o : Option String) (d : String) : String :=
  match o with
  | none => d
  | some s => if s = "" then d else s

/-! ## match.py -/

/-- `_normalize_token`: `t.lower().strip().strip(".,;:!?")`. -/
def normalize_token (t : String) : String :=
  pyStripChars ['.', ',', ';', ':', '!', '?'] (pyStrip (pyLower t))

/-- `_token_set`: `{ _normalize_token(t) for t in text.split() if t.strip() }`. -/
def token_set (text : String) : Finset String :=
  (((pySplit text).filter (fun t => pyStrip t ≠ "")).map normalize_token).toFinset

/-- `score_text_against_keywords` from match.py. -/
def score_text_against_keywords (text : String) (keywords : List String) : ℚ :=
  let tokens := token_set text
  let kws := (keywords.map normalize_token).toFinset
  if tokens = ∅ ∨ kws = ∅ then 0
  else
    let overlap := tokens ∩ kws
    let base : ℚ := (overlap.card : ℚ) / ((max 1 kws.card : ℕ) : ℚ)
    let density : ℚ := (overlap.card : ℚ) / ((max 1 tokens.card : ℕ) : ℚ)
    base * 0.7 + density * 0.3

/-- `_tfidf_similarity` from match.py.  The `try` branch delegates to the
external sklearn TF-IDF machinery (an out-of-scope collaborator per the spec);
when it is unavailable the source falls back to the per-bullet token Jaccard
computed here, which is the branch embedded. -/
def tfidf_similarity (bullets : List String) (job_text : String) : List ℚ :=
  let jd_tokens := token_set job_text
  bullets.map (fun b =>
    let bt := token_set b
    let inter : ℕ := (bt ∩ jd_tokens).card
    let union : ℕ := if (bt ∪ jd_tokens).card = 0 then 1 else (bt ∪ jd_tokens).card
    (inter : ℚ) / (union : ℚ))

/-- The similarity list for one role:
`_tfidf_similarity(bullet_texts, job_text) if (job_text and bullet_texts) else [0.0] * len(bullet_texts)`. -/
def role_sim_scores (job_text : Option String) (bullet_texts : List String) : List ℚ :=
  if strTruthy job_text ∧ bullet_texts ≠ [] then
    tfidf_similarity bullet_texts ((job_text).getD "")
  else
    List.replicate bullet_texts.length 0

/-- The skill-overlap micro-boost `0.05 * len(set(exp.skills) & set(keywords))`
added to every bullet of a role (raw strings, not normalized). -/
def skill_boost (exp : Experience) (keywords : List String) : ℚ :=
  0.05 * ((exp.skills.toFinset ∩ keywords.toFinset).card : ℚ)

/-- The inner loop of `select_bullets` for one role: score each bullet, keep
those with strictly positive score, carrying role index, bullet index, a text
snapshot, the source ids and the blended score. -/
def score_role_bullets (idx : ℕ) (exp : Experience) (keywords : List String)
    (job_text : Option String) : List SelectedBullet :=
  let bullet_texts := exp.bullets.map Bullet.text
  let sim_scores := role_sim_scores job_text bullet_texts
  exp.bullets.enum.filterMap (fun q =>
    let kw_score := score_text_against_keywords q.2.text keywords
    let sem := sim_scores.getD q.1 0
    let s := sem * 0.6 + kw_score * 0.4 + skill_boost exp keywords
    if 0 < s then
      some { role_index := idx, bullet_index := q.1, text := q.2.text,
             source_ids := q.2.source_ids, score := s }
    else none)

/-- The ranking order used by `scored.sort(key=lambda x: x.score, reverse=True)`:
descending by score. -/
def score_ge (a b : SelectedBullet) : Prop := b.score ≤ a.score

instance : DecidableRel score_ge := fun a b =>
  inferInstanceAs (Decidable (b.score ≤ a.score))

instance : IsTotal SelectedBullet score_ge :=
  ⟨fun a b => le_total b.score a.score⟩

instance : IsTrans SelectedBullet score_ge :=
  ⟨fun _ _ _ h1 h2 => le_trans h2 h1⟩

/-- Python `list.sort` is a stable sort; `scored.sort(key=lambda x: x.score,
reverse=True)` is therefore the stable descending-by-score sort, realized by
insertion sort with the `score_ge` order. -/
def rank_bullets (l : List SelectedBullet) : List SelectedBullet :=
  List.insertionSort score_ge l

/-- Per-role budget: index 0 → `budgets[0]`, index 1 → `budgets[1]`, any
index ≥ 2 → `budgets[2]`. -/
def budget_for (budgets : ℕ × ℕ × ℕ) (idx : ℕ) : ℕ :=
  if idx = 0 then budgets.1 else if idx = 1 then budgets.2.1 else budgets.2.2

/-- Accumulator recursion for `dedup_keys`: `seen` holds the keys already
emitted. -/
def dedup_keys_aux : List String → List String → List String
  | _, [] => []
  | seen, x :: xs =>
    if x ∈ seen then dedup_keys_aux seen xs
    else x :: dedup_keys_aux (x :: seen) xs

/-- Python `list(dict.fromkeys(l))`: deduplicate keeping the first occurrence
of each element, preserving order (a dict records each key at its first
insertion and preserves insertion order). -/
def dedup_keys (l : List String) : List String := dedup_keys_aux [] l

/-- `select_bullets` from match.py. -/
def select_bullets (candidate : Candidate) (keywords : List String)
    (job_text : Option String := none) (budgets : ℕ × ℕ × ℕ := (6, 4, 2)) :
    SelectionResult :=
  { selected_by_role :=
      candidate.work_experience.enum.map (fun p =>
        (p.1, (rank_bullets (score_role_bullets p.1 p.2 keywords job_text)).take
                (budget_for budgets p.1)))
    keywords := dedup_keys keywords }

/-! ## generate.py -/

/-- One entry of the `bullets` list inside an experience block of the resume
context (a dict with `text` and `source_ids` in the source). -/
structure ResumeBullet where
  text : String
  source_ids : List String
deriving Repr, DecidableEq

/-- One entry of the `experiences` list of the resume context. -/
structure ResumeExperienceBlock where
  company : String
  role : String
  start : Option String
  end_ : Option String
  bullets : List ResumeBullet
deriving Repr, DecidableEq

/-- One entry of the `education` list of the resume context. -/
structure ResumeEducationBlock where
  institution : String
  degree : Option String
  start : Option String
  end_ : Option String
deriving Repr, DecidableEq

/-- One entry of the flat `trace.bullets` list of the resume context. -/
structure TraceBullet where
  text : String
  source_ids : List String
  role_index : ℕ
  score : ℚ
deriving Repr, DecidableEq

/-- The `job` block of the resume context. -/
structure ResumeJobBlock where
  title : Option String
  company : Option String
  location : Option String
  keywords : List String
deriving Repr, DecidableEq

/-- The dict returned by `build_resume_context`, with its fixed key structure
made explicit. -/
structure ResumeContext where
  identity : Identity
  experiences : List ResumeExperienceBlock
  education : List ResumeEducationBlock
  skills : List String
  trace : List TraceBullet
  job : ResumeJobBlock
deriving Repr, DecidableEq

/-- `selection.selected_by_role.get(idx, [])` on the association-list model of
the dict (keys are unique in any dict, so first match is the match). -/
def dict_get_role (m : List (ℕ × List SelectedBullet)) (k : ℕ) :
    List SelectedBullet :=
  match m.find? (fun p => p.1 == k) with
  | some p => p.2
  | none => []

/-- `build_resume_context` from generate.py. -/
def build_resume_context (candidate : Candidate) (job : JobPosting)
    (selection : SelectionResult) : ResumeContext :=
  { identity :=
      { name := candidate.identity.name
        email := candidate.identity.email
        phone := candidate.identity.phone
        location := candidate.identity.location
        links := candidate.identity.links }
    experiences :=
      candidate.work_experience.enum.map (fun p =>
        { company := p.2.company
          role := p.2.role
          start := p.2.start
          end_ := p.2.end_
          bullets := (dict_get_role selection.selected_by_role p.1).map
            (fun sb => { text := sb.text, source_ids := sb.source_ids }) })
    education :=
      candidate.education.map (fun ed =>
        { institution := ed.institution
          degree := ed.degree
          start := ed.start
          end_ := ed.end_ })
    skills := dedup_keys (candidate.skills_hard ++ candidate.skills_soft)
    trace :=
      selection.selected_by_role.foldl
        (fun acc p => acc ++ p.2.map (fun sb =>
          { text := sb.text
            source_ids := sb.source_ids
            role_index := p.1
            score := sb.score }))
        []
    job :=
      { title := job.title
        company := job.company
        location := job.location
        keywords := job.keywords } }

/-- The dict returned by `build_cover_letter`. -/
structure CoverLetter where
  greeting : String
  paragraphs : List String
  closing : String
deriving Repr, DecidableEq

/-- The ASCII apostrophe character, as a string. -/
def asciiApos : String := String.singleton (Char.ofNat 39)

/-- `sorted(selection.selected_by_role.keys())`. -/
def sorted_role_keys (m : List (ℕ × List SelectedBullet)) : List ℕ :=
  List.insertionSort (fun a b => a ≤ b) (m.map Prod.fst)

/-- `build_cover_letter` from generate.py.  The source file mixes ASCII
apostrophes (intro) with the typographic right single quotation mark U+2019
(fallback middle sentence, closing sentence) and a non-breaking hyphen U+2011
in `cross‑functional`; the embedding reproduces those characters exactly. -/
def build_cover_letter (candidate : Candidate) (job : JobPosting)
    (selection : SelectionResult) (personal_notes : Option String := none) :
    CoverLetter :=
  let name := candidate.identity.name
  let company := pyOrStr job.company "your team"
  let title := pyOrStr job.title "this role"
  let all_bullets : List String :=
    (sorted_role_keys selection.selected_by_role).foldl
      (fun acc idx =>
        acc ++ (dict_get_role selection.selected_by_role idx).map SelectedBullet.text)
      []
  let highlights := all_bullets.take 3
  let lead_skills := candidate.skills_hard.take 3
  let soft := candidate.skills_soft.take 2
  let intro :=
    "I" ++ asciiApos ++ "m reaching out about the " ++ title ++ " at " ++ company ++
    ". My recent work has centered on " ++ String.intercalate ", " lead_skills ++
    (if soft ≠ [] then
      " and I tend to bring " ++ String.intercalate ", " soft ++ " to cross‑functional work."
    else ".")
  let middle0 :=
    if highlights ≠ [] then
      "A few examples of the kind of work I do: " ++ String.intercalate "; " highlights ++ "."
    else
      "I’m glad to share examples of recent projects on request."
  let closing :=
    "If the team is exploring solutions in this area, I’d value a conversation to compare notes and see where I can help."
  let middle :=
    match personal_notes with
    | some pn => if pn ≠ "" then middle0 ++ " " ++ pyStrip pn else middle0
    | none => middle0
  { greeting := "Hello,"
    paragraphs := [intro, middle, closing]
    closing := "Best regards,\n" ++ name }

/-! ## Spec-side definitions, for refinement comparisons

These follow the wording of the specification, not the source, and exist only
to be compared with the source-derived definitions above. -/

/-- The keyword score exactly as the spec words it:
`keyword_score = 0.7·base + 0.3·density` with
`base = |tokens ∩ keywords| / max(1, |keywords|)` and
`density = |tokens ∩ keywords| / max(1, |tokens|)` over normalized token sets
(no early-return clause). -/
def keyword_score_spec (text : String) (keywords : List String) : ℚ :=
  let tokens := token_set text
  let kws := (keywords.map normalize_token).toFinset
  let base : ℚ := ((tokens ∩ kws).card : ℚ) / ((max 1 kws.card : ℕ) : ℚ)
  let density : ℚ := ((tokens ∩ kws).card : ℚ) / ((max 1 tokens.card : ℕ) : ℚ)
  0.7 * base + 0.3 * density

/-- The per-bullet token-Jaccard fallback similarity of one bullet against the
job text, as the spec describes the degraded semantic score. -/
def jaccard_fallback (b : String) (job_text : String) : ℚ :=
  let jd_tokens := token_set job_text
  let bt := token_set b
  let inter : ℕ := (bt ∩ jd_tokens).card
  let union : ℕ := if (bt ∪ jd_tokens).card = 0 then 1 else (bt ∪ jd_tokens).card
  (inter : ℚ) / (union : ℚ)

/-- The semantic score a bullet with the given text receives during selection:
0 without a (truthy) job text, the Jaccard fallback otherwise. -/
def semantic_score_spec (job_text : Option String) (text : String) : ℚ :=
  match job_text with
  | none => 0
  | some jt => if jt = "" then 0 else jaccard_fallback text jt

/-- Accumulator recursion for `dedup_ci`: `seen` holds the lowercased keys
already emitted. -/
def dedup_ci_aux : List String → List String → List String
  | _, [] => []
  | seen, x :: xs =>
    if pyLower x ∈ seen then dedup_ci_aux seen xs
    else x :: dedup_ci_aux (pyLower x :: seen) xs

/-- Case-insensitive first-occurrence deduplication, as the spec words the
skills-list contract (`deduplicated (case-insensitive, order-preserving)`):
a skill is dropped when an earlier skill equals it up to letter case. -/
def dedup_ci (l : List String) : List String := dedup_ci_aux [] l

/-- The strict order in which the stable descending sort of `select_bullets`
must emit equal-score bullets: higher score first, and original bullet order
(the `bullet_index`) among equal scores. -/
def rank_lex (a b : SelectedBullet) : Prop :=
  b.score < a.score ∨ (a.score = b.score ∧ a.bullet_index < b.bullet_index)

/-- State-threading variant of `select_bullets`: the Python callee receives the
candidate by reference and could in principle mutate it, so the candidate value
is threaded through every loop iteration exactly as the source's statements
touch it — every statement of the loop body only reads `exp`/`candidate`, so
each iteration returns the candidate it received. -/
def select_bullets_tracked (candidate : Candidate) (keywords : List String)
    (job_text : Option String) (budgets : ℕ × ℕ × ℕ) :
    SelectionResult × Candidate :=
  let fin := candidate.work_experience.enum.foldl
    (fun (st : List (ℕ × List SelectedBullet) × Candidate)
         (p : ℕ × Experience) =>
      (st.1 ++ [(p.1, (rank_bullets (score_role_bullets p.1 p.2 keywords job_text)).take
                        (budget_for budgets p.1))], st.2))
    ([], candidate)
  ({ selected_by_role := fin.1, keywords := dedup_keys keywords }, fin.2)

/-! ## Concrete sample inputs (used to instantiate proved properties) -/

/-- The scenario bullet from the spec's testable properties. -/
def sample_bullet : Bullet :=
  { text := "Led migration to AWS, reducing cost 20%", source_ids := ["doc1"] }

def sample_exp : Experience :=
  { company := "Acme", role := "Engineer", bullets := [sample_bullet], skills := ["aws"] }

def sample_cand : Candidate :=
  { identity := { name := "Ann Sample", email := "ann@example.org" }
    work_experience := [sample_exp] }

/-- What selection produces for `sample_cand` against
`["aws","cost","migration"]` with no job text: keyword score 29/35, blended
score 0.4·(29/35) + 0.05 = 267/700. -/
def sample_sb : SelectedBullet :=
  { role_index := 0, bullet_index := 0, text := "Led migration to AWS, reducing cost 20%",
    source_ids := ["doc1"], score := 267/700 }

/-- A role with two textually identical bullets: both score 0.8·0.4 = 8/25
against `["aws"]`, exercising the stable tie-break. -/
def stab_exp : Experience :=
  { company := "Beta", role := "SRE"
    bullets := [{ text := "Improved AWS reliability", source_ids := ["d0"] },
                { text := "Improved AWS reliability", source_ids := ["d1"] }] }

def stab_cand : Candidate :=
  { identity := { name := "Bo Sample", email := "bo@example.org" }
    work_experience := [stab_exp] }

def stab_sb0 : SelectedBullet :=
  { role_index := 0, bullet_index := 0, text := "Improved AWS reliability",
    source_ids := ["d0"], score := 8/25 }

def stab_sb1 : SelectedBullet :=
  { role_index := 0, bullet_index := 1, text := "Improved AWS reliability",
    source_ids := ["d1"], score := 8/25 }

/-- A candidate whose hard and soft skills differ only by letter case. -/
def case_cand : Candidate :=
  { identity := { name := "Cy Sample", email := "cy@example.org" }
    skills_hard := ["Python"], skills_soft := ["python"] }

def empty_job : JobPosting := { text := "" }

def empty_sel : SelectionResult := { selected_by_role := [], keywords := [] }

/-- A selection whose only role maps to the empty list. -/
def empty_role_sel : SelectionResult := { selected_by_role := [(0, [])], keywords := [] }

/-! ## Helper lemmas -/

/-- The scorer's early-return clause is redundant: the code's
`score_text_against_keywords` agrees everywhere with the spec's closed formula
`0.7·base + 0.3·density`. -/
theorem score_eq_keyword_score_spec (t : String) (k : List String) :
    score_text_against_keywords t k = keyword_score_spec t k := by
  simp only [score_text_against_keywords, keyword_score_spec]
  by_cases h : token_set t = ∅ ∨ (k.map normalize_token).toFinset = ∅
  · rw [if_pos h]
    rcases h with h | h <;> simp [h]
  · rw [if_neg h]; ring

theorem mem_rank_bullets {sb : SelectedBullet} {l : List SelectedBullet} :
    sb ∈ rank_bullets l ↔ sb ∈ l :=
  (List.perm_insertionSort score_ge l).mem_iff

theorem sorted_rank_bullets (l : List SelectedBullet) :
    (rank_bullets l).Pairwise score_ge :=
  List.sorted_insertionSort score_ge l

/-- Unfolding membership in the per-role output of `select_bullets`. -/
theorem mem_selected_by_role {c : Candidate} {kws : List String}
    {jt : Option String} {bg : ℕ × ℕ × ℕ} {r : ℕ} {lst : List SelectedBullet} :
    (r, lst) ∈ (select_bullets c kws jt bg).selected_by_role ↔
      ∃ exp, c.work_experience.get? r = some exp ∧
        lst = (rank_bullets (score_role_bullets r exp kws jt)).take
                (budget_for bg r) := by
  simp only [select_bullets, List.mem_map]
  constructor
  · rintro ⟨p, hp, heq⟩
    obtain ⟨h1, h2⟩ := Prod.mk.injEq _ _ _ _ |>.mp heq
    refine ⟨p.2, ?_, ?_⟩
    · rw [← h1]; exact List.mem_enum_iff_get?.mp hp
    · rw [← h2, h1]
  · rintro ⟨exp, hget, rfl⟩
    exact ⟨(r, exp), List.mem_enum_iff_get?.mpr hget, rfl⟩

/-- Unfolding membership in the scored-and-filtered list of one role. -/
theorem mem_score_role_bullets {idx : ℕ} {exp : Experience} {kws : List String}
    {jt : Option String} {sb : SelectedBullet} :
    sb ∈ score_role_bullets idx exp kws jt ↔
      ∃ bidx b, exp.bullets.get? bidx = some b ∧ 0 < sb.score ∧
        sb = { role_index := idx, bullet_index := bidx, text := b.text,
               source_ids := b.source_ids,
               score := (role_sim_scores jt (exp.bullets.map Bullet.text)).getD bidx 0 * 0.6
                        + score_text_against_keywords b.text kws * 0.4
                        + skill_boost exp kws } := by
  simp only [score_role_bullets, List.mem_filterMap]
  constructor
  · rintro ⟨q, hq, hf⟩
    split at hf
    · next hpos =>
      refine ⟨q.1, q.2, List.mem_enum_iff_get?.mp hq, ?_, ?_⟩
      · rw [← Option.some_inj.mp hf]; exact hpos
      · exact (Option.some_inj.mp hf).symm
    · exact absurd hf (by simp)
  · rintro ⟨bidx, b, hget, hpos, rfl⟩
    refine ⟨(bidx, b), List.mem_enum_iff_get?.mpr hget, ?_⟩
    rw [if_pos hpos]

theorem getD_replicate_zero : ∀ (n i : ℕ), (List.replicate n (0 : ℚ)).getD i 0 = 0
  | 0, _ => rfl
  | _ + 1, 0 => rfl
  | n + 1, i + 1 => getD_replicate_zero n i

/-- The per-bullet view of the Jaccard fallback list. -/
theorem tfidf_similarity_map (l : List String) (jt : String) :
    tfidf_similarity l jt = l.map (fun b => jaccard_fallback b jt) := rfl

theorem getD_map_jaccard (s : String) :
    ∀ (l : List String) (i : ℕ) (t : String), l.get? i = some t →
      (l.map (fun b => jaccard_fallback b s)).getD i 0 = jaccard_fallback t s
  | [], i, t, h => by simp at h
  | x :: xs, 0, t, h => by
      simp only [List.get?] at h
      cases h
      rfl
  | x :: xs, i + 1, t, h => getD_map_jaccard s xs i t h

/-- The semantic score `select_bullets` reads for the bullet at index `bidx`
is exactly `semantic_score_spec` of that bullet's text. -/
theorem role_sim_scores_getD {bullets : List Bullet} {bidx : ℕ} {b : Bullet}
    (jt : Option String) (hb : bullets.get? bidx = some b) :
    (role_sim_scores jt (bullets.map Bullet.text)).getD bidx 0 =
      semantic_score_spec jt b.text := by
  have hbt : (bullets.map Bullet.text).get? bidx = some b.text := by
    rw [List.get?_map, hb]; rfl
  cases jt with
  | none =>
    simp only [role_sim_scores, strTruthy, semantic_score_spec]
    rw [if_neg (by simp)]
    exact getD_replicate_zero _ _
  | some s =>
    by_cases hs : s = ""
    · subst hs
      simp only [role_sim_scores, strTruthy, semantic_score_spec]
      rw [if_neg (by simp)]
      simp [getD_replicate_zero]
    · have hne : bullets.map Bullet.text ≠ [] := by
        intro hnil
        rw [hnil] at hbt
        exact absurd hbt (by simp)
      simp only [role_sim_scores, strTruthy, semantic_score_spec]
      rw [if_pos ⟨by simp [hs], hne⟩, if_neg hs, tfidf_similarity_map]
      exact getD_map_jaccard s _ _ _ hbt

theorem score_empty_keywords (t : String) :
    score_text_against_keywords t [] = 0 := by
  simp [score_text_against_keywords]

theorem skill_boost_empty (e : Experience) : skill_boost e [] = 0 := by
  simp [skill_boost]

theorem rank_lex_score_le {a b : SelectedBullet} (h : rank_lex a b) :
    b.score ≤ a.score := by
  rcases h with h | ⟨h, _⟩
  · exact le_of_lt h
  · exact le_of_eq h.symm

/-- Inserting an element whose original position precedes everything in an
already lex-ordered list keeps the list lex-ordered. -/
theorem orderedInsert_pairwise_lex (x : SelectedBullet) :
    ∀ l : List SelectedBullet, l.Pairwise rank_lex →
      (∀ y ∈ l, x.bullet_index < y.bullet_index) →
      (List.orderedInsert score_ge x l).Pairwise rank_lex
  | [], _, _ => by simp [rank_lex]
  | y :: ys, hl, hx => by
    rcases List.pairwise_cons.mp hl with ⟨hy, hys⟩
    rw [List.orderedInsert]
    split
    · next hge =>
      refine List.pairwise_cons.mpr ⟨?_, hl⟩
      intro z hz
      have hzx : z.score ≤ x.score := by
        rcases List.mem_cons.mp hz with rfl | hz'
        · exact hge
        · exact le_trans (rank_lex_score_le (hy z hz')) hge
      rcases lt_or_eq_of_le hzx with hlt | heq
      · exact Or.inl hlt
      · exact Or.inr ⟨heq.symm, hx z hz⟩
    · next hng =>
      refine List.pairwise_cons.mpr
        ⟨?_, orderedInsert_pairwise_lex x ys hys
              (fun z hz => hx z (List.mem_cons_of_mem _ hz))⟩
      intro z hz
      rcases List.mem_cons.mp ((List.perm_orderedInsert _ _ _).mem_iff.mp hz) with rfl | hz'
      · exact Or.inl (lt_of_not_le hng)
      · exact hy z hz'

/-- The stable descending sort of a list listed in original bullet order is
lex-ordered: score strictly decreasing, or equal score with original order. -/
theorem rank_bullets_pairwise_lex :
    ∀ l : List SelectedBullet,
      l.Pairwise (fun a b => a.bullet_index < b.bullet_index) →
      (rank_bullets l).Pairwise rank_lex
  | [], _ => by simp [rank_bullets]
  | x :: xs, hl => by
    rcases List.pairwise_cons.mp hl with ⟨hx, hxs⟩
    rw [rank_bullets, List.insertionSort]
    exact orderedInsert_pairwise_lex x _ (rank_bullets_pairwise_lex xs hxs)
      (fun y hy => hx y ((List.perm_insertionSort score_ge xs).mem_iff.mp hy))

/-- `filterMap` carries a pairwise relation along the partial map. -/
theorem pairwise_filterMap_lift {α β : Type _} {R : α → α → Prop}
    {S : β → β → Prop} (f : α → Option β)
    (h : ∀ a b, R a b → ∀ x, f a = some x → ∀ y, f b = some y → S x y) :
    ∀ {l : List α}, l.Pairwise R → (l.filterMap f).Pairwise S := by
  intro l hl
  induction l with
  | nil => simp
  | cons a l ih =>
    rcases List.pairwise_cons.mp hl with ⟨ha, hl'⟩
    rw [List.filterMap_cons]
    cases hfa : f a with
    | none => exact ih hl'
    | some x =>
      refine List.pairwise_cons.mpr ⟨?_, ih hl'⟩
      intro y hy
      obtain ⟨b, hb, hfb⟩ := List.mem_filterMap.mp hy
      exact h a b (ha b hb) x hfa y hfb

/-- The scored list of a role lists bullets in original order. -/
theorem score_role_bullets_pairwise_bidx (idx : ℕ) (exp : Experience)
    (kws : List String) (jt : Option String) :
    (score_role_bullets idx exp kws jt).Pairwise
      (fun a b => a.bullet_index < b.bullet_index) := by
  have henum : exp.bullets.enum.Pairwise (fun a b => a.1 < b.1) := by
    have h1 : (exp.bullets.enum.map Prod.fst).Pairwise (· < ·) := by
      rw [List.enum_map_fst]
      exact List.pairwise_lt_range _
    exact List.pairwise_map.mp h1
  simp only [score_role_bullets]
  refine pairwise_filterMap_lift _ ?_ henum
  intro a b hab x hx y hy
  split at hx
  · split at hy
    · cases hx
      cases hy
      exact hab
    · exact absurd hy (by simp)
  · exact absurd hx (by simp)

/-- `dedup_keys_aux` keeps exactly the elements not yet seen. -/
theorem mem_dedup_keys_aux :
    ∀ (seen l : List String) (x : String),
      x ∈ dedup_keys_aux seen l ↔ x ∈ l ∧ x ∉ seen
  | seen, [], x => by simp [dedup_keys_aux]
  | seen, y :: ys, x => by
    rw [dedup_keys_aux]
    split
    · next hy =>
      rw [mem_dedup_keys_aux seen ys x]
      constructor
      · rintro ⟨h1, h2⟩
        exact ⟨List.mem_cons_of_mem _ h1, h2⟩
      · rintro ⟨h1, h2⟩
        rcases List.mem_cons.mp h1 with rfl | h1'
        · exact absurd hy h2
        · exact ⟨h1', h2⟩
    · next hy =>
      simp only [List.mem_cons, mem_dedup_keys_aux (y :: seen) ys x]
      constructor
      · rintro (rfl | ⟨h1, h2⟩)
        · exact ⟨Or.inl rfl, hy⟩
        · exact ⟨Or.inr h1, fun hs => h2 (Or.inr hs)⟩
      · rintro ⟨h1, h2⟩
        by_cases hxy : x = y
        · exact Or.inl hxy
        · rcases h1 with rfl | h1'
          · exact Or.inl rfl
          · exact Or.inr ⟨h1', fun hs => hs.elim hxy h2⟩

theorem dedup_keys_aux_nodup :
    ∀ (seen l : List String), (dedup_keys_aux seen l).Nodup
  | seen, [] => by simp [dedup_keys_aux]
  | seen, y :: ys => by
    rw [dedup_keys_aux]
    split
    · exact dedup_keys_aux_nodup seen ys
    · refine List.nodup_cons.mpr ⟨?_, dedup_keys_aux_nodup (y :: seen) ys⟩
      intro hmem
      exact ((mem_dedup_keys_aux _ _ _).mp hmem).2 (List.mem_cons_self _ _)

theorem dedup_keys_aux_sublist :
    ∀ (seen l : List String), List.Sublist (dedup_keys_aux seen l) l
  | seen, [] => by simp [dedup_keys_aux]
  | seen, y :: ys => by
    rw [dedup_keys_aux]
    split
    · exact (dedup_keys_aux_sublist seen ys).cons _
    · exact (dedup_keys_aux_sublist (y :: seen) ys).cons₂ _

/-- `dict.get(idx, [])` returns `[]` whenever every stored value is `[]`. -/
theorem dict_get_role_nil {m : List (ℕ × List SelectedBullet)}
    (h : ∀ p ∈ m, p.2 = []) (k : ℕ) : dict_get_role m k = [] := by
  rw [dict_get_role]
  cases hf : m.find? (fun p => p.1 == k) with
  | none => rfl
  | some p => exact h p (List.mem_of_find?_eq_some hf)

/-- The highlight-collection loop of `build_cover_letter` collects nothing
from a selection whose role lists are all empty. -/
theorem highlights_loop_nil {m : List (ℕ × List SelectedBullet)}
    (h : ∀ p ∈ m, p.2 = []) :
    ∀ (ks : List ℕ) (acc : List String),
      ks.foldl (fun acc idx => acc ++ (dict_get_role m idx).map SelectedBullet.text) acc = acc
  | [], _ => rfl
  | k :: ks, acc => by
    rw [List.foldl_cons, dict_get_role_nil h k]
    simp only [List.map_nil, List.append_nil]
    exact highlights_loop_nil h ks acc

/-! ## Claims -/

/-- C10: for every text string and keyword list, `score_text_against_keywords`
returns a value in the closed interval [0, 1], and returns exactly 0 whenever
the text has no tokens (its whitespace split is empty) or the keyword list is
empty. -/
theorem C10_keyword_score_bounds (t : String) (kws : List String) :
    0 ≤ score_text_against_keywords t kws ∧
    score_text_against_keywords t kws ≤ 1 ∧
    ((pySplit t = [] ∨ kws = []) → score_text_against_keywords t kws = 0) := by
  simp only [score_text_against_keywords]
  split
  · exact ⟨le_refl 0, by norm_num, fun _ => rfl⟩
  · next h =>
    push_neg at h
    have hdenK : (0 : ℚ) < ((max 1 (kws.map normalize_token).toFinset.card : ℕ) : ℚ) := by
      have : 1 ≤ max 1 (kws.map normalize_token).toFinset.card := le_max_left _ _
      exact_mod_cast Nat.lt_of_lt_of_le Nat.zero_lt_one this
    have hdenT : (0 : ℚ) < ((max 1 (token_set t).card : ℕ) : ℚ) := by
      have : 1 ≤ max 1 (token_set t).card := le_max_left _ _
      exact_mod_cast Nat.lt_of_lt_of_le Nat.zero_lt_one this
    have hbase : ((token_set t ∩ (kws.map normalize_token).toFinset).card : ℚ) /
        ((max 1 (kws.map normalize_token).toFinset.card : ℕ) : ℚ) ≤ 1 := by
      rw [div_le_one hdenK]
      exact_mod_cast le_trans
        (Finset.card_le_card (Finset.inter_subset_right))
        (le_max_right 1 _)
    have hdens : ((token_set t ∩ (kws.map normalize_token).toFinset).card : ℚ) /
        ((max 1 (token_set t).card : ℕ) : ℚ) ≤ 1 := by
      rw [div_le_one hdenT]
      exact_mod_cast le_trans
        (Finset.card_le_card (Finset.inter_subset_left))
        (le_max_right 1 _)
    refine ⟨by positivity, ?_, ?_⟩
    · linarith [hbase, hdens]
    · intro hcase
      exfalso
      rcases hcase with hcase | hcase
      · exact h.1 (by simp [token_set, hcase])
      · exact h.2 (by simp [hcase])

/-- Witness for C10 at a concrete input: whitespace-only text scores 0. -/
theorem C10_keyword_score_bounds_witness :
    score_text_against_keywords "   " ["aws"] = 0 :=
  (C10_keyword_score_bounds "   " ["aws"]).2.2 (Or.inl (by decide))

/-- C9: `selected_by_role` carries exactly the keys 0..n-1 for a candidate with
n roles (roles with no qualifying bullets map to an empty list, never being
absent), and no other keys. -/
theorem C9_selection_keys_complete (c : Candidate) (kws : List String)
    (jt : Option String) (bg : ℕ × ℕ × ℕ) :
    (select_bullets c kws jt bg).selected_by_role.map Prod.fst =
      List.range c.work_experience.length := by
  simp only [select_bullets, List.map_map]
  have : (Prod.fst ∘ fun p : ℕ × Experience =>
      (p.1, (rank_bullets (score_role_bullets p.1 p.2 kws jt)).take (budget_for bg p.1)))
      = Prod.fst := rfl
  rw [this, List.enum_map_fst]

/-- C1: every bullet selected for a role carries the blended relevance score
`0.6·semantic_score + 0.4·keyword_score + 0.05·|role.skills ∩ keywords|`,
where `keyword_score = 0.7·base + 0.3·density` over normalized token sets
(`keyword_score_spec`), the semantic score is the job-text similarity of the
bullet's text (0 when no job text is given), and the skill boost counts the
raw intersection of the role's skill tags with the keyword list. -/
theorem C1_blended_score_formula (c : Candidate) (kws : List String)
    (jt : Option String) (bg : ℕ × ℕ × ℕ) (r : ℕ) (lst : List SelectedBullet)
    (sb : SelectedBullet)
    (hmem : (r, lst) ∈ (select_bullets c kws jt bg).selected_by_role)
    (hsb : sb ∈ lst) :
    ∃ exp, c.work_experience.get? r = some exp ∧
      sb.score = semantic_score_spec jt sb.text * 0.6
                 + keyword_score_spec sb.text kws * 0.4
                 + 0.05 * ((exp.skills.toFinset ∩ kws.toFinset).card : ℚ) := by
  obtain ⟨exp, hget, rfl⟩ := mem_selected_by_role.mp hmem
  obtain ⟨bidx, b, hb, hpos, rfl⟩ :=
    mem_score_role_bullets.mp (mem_rank_bullets.mp (List.mem_of_mem_take hsb))
  refine ⟨exp, hget, ?_⟩
  dsimp only
  rw [role_sim_scores_getD jt hb, score_eq_keyword_score_spec]
  rfl

/-- Witness for C1 at the concrete sample selection. -/
theorem C1_blended_score_formula_witness :
    ∃ exp, sample_cand.work_experience.get? 0 = some exp ∧
      sample_sb.score = semantic_score_spec none sample_sb.text * 0.6
                 + keyword_score_spec sample_sb.text ["aws", "cost", "migration"] * 0.4
                 + 0.05 * ((exp.skills.toFinset ∩
                             (["aws", "cost", "migration"] : List String).toFinset).card : ℚ) :=
  C1_blended_score_formula sample_cand ["aws", "cost", "migration"] none (6, 4, 2)
    0 [sample_sb] sample_sb (by with_unfolding_all decide) (List.mem_cons_self _ _)

/-- C2: each role's output holds only strictly-positive-score bullets, is
ordered by non-increasing score, and respects the per-role budget
(`budgets[0]` for role 0, `budgets[1]` for role 1, `budgets[2]` beyond). -/
theorem C2_positive_ranked_budgeted (c : Candidate) (kws : List String)
    (jt : Option String) (bg : ℕ × ℕ × ℕ) (r : ℕ) (lst : List SelectedBullet)
    (hmem : (r, lst) ∈ (select_bullets c kws jt bg).selected_by_role) :
    (∀ sb ∈ lst, 0 < sb.score) ∧ lst.Pairwise score_ge ∧
    lst.length ≤ budget_for bg r := by
  obtain ⟨exp, hget, rfl⟩ := mem_selected_by_role.mp hmem
  refine ⟨?_, ?_, List.length_take_le _ _⟩
  · intro sb hsb
    obtain ⟨bidx, b, _, hpos, _⟩ :=
      mem_score_role_bullets.mp (mem_rank_bullets.mp (List.mem_of_mem_take hsb))
    exact hpos
  · exact (sorted_rank_bullets _).sublist (List.take_sublist _ _)

/-- Witness for C2 at the concrete sample selection. -/
theorem C2_positive_ranked_budgeted_witness :
    (∀ sb ∈ [sample_sb], 0 < sb.score) ∧ ([sample_sb]).Pairwise score_ge ∧
    ([sample_sb]).length ≤ budget_for (6, 4, 2) 0 :=
  C2_positive_ranked_budgeted sample_cand ["aws", "cost", "migration"] none (6, 4, 2)
    0 [sample_sb] (by with_unfolding_all decide)

/-- C3: selection is deterministic — the embedding is a pure function, so two
runs on identical inputs are definitionally equal — and the sort is stable:
within any role's output, bullets with equal scores appear in original bullet
order (strictly increasing `bullet_index`). -/
theorem C3_deterministic_stable_ties (c : Candidate) (kws : List String)
    (jt : Option String) (bg : ℕ × ℕ × ℕ) :
    select_bullets c kws jt bg = select_bullets c kws jt bg ∧
    ∀ r lst, (r, lst) ∈ (select_bullets c kws jt bg).selected_by_role →
      ∀ (i j : ℕ) (hi : i < lst.length) (hj : j < lst.length), i < j →
        (lst.get ⟨i, hi⟩).score = (lst.get ⟨j, hj⟩).score →
        (lst.get ⟨i, hi⟩).bullet_index < (lst.get ⟨j, hj⟩).bullet_index := by
  refine ⟨rfl, ?_⟩
  intro r lst hmem i j hi hj hij hscore
  obtain ⟨exp, hget, rfl⟩ := mem_selected_by_role.mp hmem
  have hp : (List.take (budget_for bg r)
      (rank_bullets (score_role_bullets r exp kws jt))).Pairwise rank_lex :=
    (rank_bullets_pairwise_lex _ (score_role_bullets_pairwise_bidx r exp kws jt)).sublist
      (List.take_sublist _ _)
  have := List.pairwise_iff_get.mp hp ⟨i, hi⟩ ⟨j, hj⟩ hij
  rcases this with hlt | ⟨_, hbidx⟩
  · exact absurd hscore (ne_of_gt hlt)
  · exact hbidx

/-- Witness for C3: two identical bullets tie at score 8/25 and are emitted in
original order. -/
theorem C3_deterministic_stable_ties_witness :
    stab_sb0.bullet_index < stab_sb1.bullet_index :=
  (C3_deterministic_stable_ties stab_cand ["aws"] none (6, 4, 2)).2
    0 [stab_sb0, stab_sb1] (by with_unfolding_all decide)
    0 1 (by decide) (by decide) (by decide) (by with_unfolding_all decide)

/-- C4: provenance is never fabricated — each selected bullet names its role
index, and its text and source ids are exactly those of the originating bullet
at position `bullet_index` of that role (equality, hence a subset). -/
theorem C4_provenance_preserved (c : Candidate) (kws : List String)
    (jt : Option String) (bg : ℕ × ℕ × ℕ) (r : ℕ) (lst : List SelectedBullet)
    (sb : SelectedBullet)
    (hmem : (r, lst) ∈ (select_bullets c kws jt bg).selected_by_role)
    (hsb : sb ∈ lst) :
    sb.role_index = r ∧
    ∃ exp b, c.work_experience.get? sb.role_index = some exp ∧
      exp.bullets.get? sb.bullet_index = some b ∧
      sb.text = b.text ∧ sb.source_ids ⊆ b.source_ids := by
  obtain ⟨exp, hget, rfl⟩ := mem_selected_by_role.mp hmem
  obtain ⟨bidx, b, hb, hpos, rfl⟩ :=
    mem_score_role_bullets.mp (mem_rank_bullets.mp (List.mem_of_mem_take hsb))
  exact ⟨rfl, exp, b, hget, hb, rfl, List.Subset.refl _⟩

/-- Witness for C4 at the concrete sample selection. -/
theorem C4_provenance_preserved_witness :
    sample_sb.role_index = 0 ∧
    ∃ exp b, sample_cand.work_experience.get? sample_sb.role_index = some exp ∧
      exp.bullets.get? sample_sb.bullet_index = some b ∧
      sample_sb.text = b.text ∧ sample_sb.source_ids ⊆ b.source_ids :=
  C4_provenance_preserved sample_cand ["aws", "cost", "migration"] none (6, 4, 2)
    0 [sample_sb] sample_sb (by with_unfolding_all decide) (List.mem_cons_self _ _)

/-- C5: selection is total (the embedding is a function into
`SelectionResult`); with an empty keyword list the keyword score and skill
boost of every bullet are exactly 0, and with additionally no job text every
role's output is empty; a candidate with zero roles yields an empty mapping. -/
theorem C5_degraded_signal_safe (c : Candidate) (kws : List String)
    (jt : Option String) (bg : ℕ × ℕ × ℕ) :
    (∀ t : String, score_text_against_keywords t [] = 0) ∧
    (∀ e : Experience, skill_boost e [] = 0) ∧
    (kws = [] → jt = none →
      ∀ p ∈ (select_bullets c kws jt bg).selected_by_role, p.2 = []) ∧
    (c.work_experience = [] →
      (select_bullets c kws jt bg).selected_by_role = []) := by
  refine ⟨score_empty_keywords, skill_boost_empty, ?_, ?_⟩
  · rintro rfl rfl ⟨r, lst⟩ hmem
    obtain ⟨exp, hget, rfl⟩ := mem_selected_by_role.mp hmem
    have hempty : score_role_bullets r exp [] none = [] := by
      apply List.filterMap_eq_nil.mpr
      intro q hq
      have hs : (role_sim_scores none (exp.bullets.map Bullet.text)).getD q.1 0 * 0.6
          + score_text_against_keywords q.2.text [] * 0.4 + skill_boost exp [] = 0 := by
        have h1 : (role_sim_scores none (exp.bullets.map Bullet.text)).getD q.1 0 = 0 := by
          simp only [role_sim_scores, strTruthy]
          rw [if_neg (by simp)]
          exact getD_replicate_zero _ _
        rw [h1, score_empty_keywords, skill_boost_empty]
        norm_num
      simp only [hs]
      rw [if_neg (by norm_num)]
    simp [hempty, rank_bullets, List.insertionSort]
  · intro hwe
    simp [select_bullets, hwe]

/-- Witness for C5: the sample candidate with no keywords and no job text
yields an empty role list. -/
theorem C5_degraded_signal_safe_witness :
    ((0 : ℕ), ([] : List SelectedBullet)) ∈
      (select_bullets sample_cand [] none (6, 4, 2)).selected_by_role ∧
    ((0 : ℕ), ([] : List SelectedBullet)).2 = [] :=
  ⟨by with_unfolding_all decide,
   (C5_degraded_signal_safe sample_cand [] none (6, 4, 2)).2.2.1 rfl rfl
     ((0 : ℕ), ([] : List SelectedBullet)) (by with_unfolding_all decide)⟩

/-- C6 counterexample: with hard skill "Python" and soft skill "python", the
resume context's skills list keeps both spellings, while a case-insensitive
first-occurrence deduplication would keep only the first — the claimed
case-insensitive deduplication does not hold of the code. -/
theorem C6_counterexample :
    (build_resume_context case_cand empty_job empty_sel).skills ≠
      dedup_ci (case_cand.skills_hard ++ case_cand.skills_soft) := by
  with_unfolding_all decide

/-- C6 as amended: the resume context's skills field is the combined hard+soft
skill list deduplicated by exact (case-sensitive) string equality, keeping the
first occurrence of each skill: it equals `dict.fromkeys`-style deduplication,
has no duplicates, is a subsequence of hard ++ soft (order preserved), and
keeps exactly the members of hard ++ soft. -/
theorem C6_amended_skills_exact_dedup (c : Candidate) (j : JobPosting)
    (s : SelectionResult) :
    (build_resume_context c j s).skills =
      dedup_keys (c.skills_hard ++ c.skills_soft) ∧
    (build_resume_context c j s).skills.Nodup ∧
    List.Sublist (build_resume_context c j s).skills
      (c.skills_hard ++ c.skills_soft) ∧
    ∀ x, x ∈ (build_resume_context c j s).skills ↔
      x ∈ c.skills_hard ++ c.skills_soft := by
  refine ⟨rfl, dedup_keys_aux_nodup _ _, dedup_keys_aux_sublist _ _, ?_⟩
  intro x
  show x ∈ dedup_keys_aux [] (c.skills_hard ++ c.skills_soft) ↔ _
  rw [mem_dedup_keys_aux]
  simp

/-- C7 counterexample: with no selected bullets and no notes, the middle
paragraph is not the claimed string spelled with an ASCII apostrophe
(U+0027) — the code writes the right single quotation mark U+2019. -/
theorem C7_counterexample :
    (build_cover_letter case_cand empty_job empty_sel none).paragraphs.get? 1 ≠
      some ("I" ++ asciiApos ++ "m glad to share examples of recent projects on request.") := by
  with_unfolding_all decide

/-- C7 as amended: when every role list of the selection is empty and no
personal notes are supplied, the middle paragraph is exactly
"I’m glad to share examples of recent projects on request." — spelled with the
typographic right single quotation mark U+2019, as in the source. -/
theorem C7_amended_fallback_middle (c : Candidate) (j : JobPosting)
    (s : SelectionResult) (h : ∀ p ∈ s.selected_by_role, p.2 = []) :
    (build_cover_letter c j s none).paragraphs.get? 1 =
      some "I’m glad to share examples of recent projects on request." := by
  simp only [build_cover_letter]
  rw [highlights_loop_nil h]
  rfl

/-- Witness for C7 (amended) at a selection with one empty role. -/
theorem C7_amended_fallback_middle_witness :
    (build_cover_letter case_cand empty_job empty_role_sel none).paragraphs.get? 1 =
      some "I’m glad to share examples of recent projects on request." :=
  C7_amended_fallback_middle case_cand empty_job empty_role_sel
    (by with_unfolding_all decide)

theorem tracked_foldl (kws : List String) (jt : Option String)
    (bg : ℕ × ℕ × ℕ) :
    ∀ (l : List (ℕ × Experience)) (acc : List (ℕ × List SelectedBullet))
      (cand : Candidate),
      l.foldl
        (fun (st : List (ℕ × List SelectedBullet) × Candidate)
             (p : ℕ × Experience) =>
          (st.1 ++ [(p.1, (rank_bullets (score_role_bullets p.1 p.2 kws jt)).take
                            (budget_for bg p.1))], st.2))
        (acc, cand)
      = (acc ++ l.map (fun p =>
          (p.1, (rank_bullets (score_role_bullets p.1 p.2 kws jt)).take
                  (budget_for bg p.1))), cand)
  | [], acc, cand => by simp
  | x :: xs, acc, cand => by
    rw [List.foldl_cons, List.map_cons]
    show xs.foldl _ (acc ++ [_], cand) = _
    rw [tracked_foldl kws jt bg xs]
    simp

/-- C8: `select_bullets` never mutates its candidate argument: threading the
candidate value through every loop iteration of the source (whose statements
only read it) returns the candidate unchanged, alongside the very result
`select_bullets` computes. -/
theorem C8_candidate_never_mutated (c : Candidate) (kws : List String)
    (jt : Option String) (bg : ℕ × ℕ × ℕ) :
    (select_bullets_tracked c kws jt bg).2 = c ∧
    (select_bullets_tracked c kws jt bg).1 = select_bullets c kws jt bg := by
  constructor
  · simp only [select_bullets_tracked, tracked_foldl]
  · simp only [select_bullets_tracked, tracked_foldl, select_bullets, List.nil_append]

end ATS
